import Mathlib

/-!
Shallow embedding of the quota-and-entitlement core of the finalpixel
repository (`lib/billing/quota.js`, `pages/api/compare.js`,
`pages/api/subscription-status.js`, `pages/api/stripe/webhook.js`),
with theorems settling the frozen claims about it.
-/

namespace FinalPixel

/-- The per-user daily quota counter document stored at
`users/{uid}/quota/daily` (fields written by the transaction in
`checkAndConsumeQuota`, `lib/billing/quota.js`). -/
structure Counter where
  day : String
  count : Nat
  max : Nat
  plan : String
deriving DecidableEq, Repr

/-- The quota store's state for one user: the counter document, or
`none` when the document does not exist yet. -/
abbrev QuotaState := Option Counter

/-- `used` as computed inside the transaction of `checkAndConsumeQuota`:
`sameDay = snap.exists && snap.get('day') === today;
 used = sameDay ? Number(snap.get('count') || 0) : 0` (lazy reset). -/
def usedOf (today : String) (st : QuotaState) : Nat :=
  match st with
  | some c => if c.day = today then c.count else 0
  | none => 0

/-- The body of the Firestore transaction in `checkAndConsumeQuota`
(`lib/billing/quota.js` lines 131-153): read the counter, compute `used`
with lazy day reset, abort with code `LIMIT_EXCEEDED` when
`used >= max` (no write), otherwise write back
`{day: today, count: used + 1, max, plan}`.  Returns the transaction
outcome (`ok usedAfter` or the error code) together with the store
state after the transaction. -/
def quotaTx (today plan : String) (mx : Nat) (st : QuotaState) :
    Except String Nat × QuotaState :=
  let used := usedOf today st
  if mx ≤ used then (Except.error "LIMIT_EXCEEDED", st)
  else (Except.ok (used + 1), some ⟨today, used + 1, mx, plan⟩)

/-- `N` concurrent `checkAndConsumeQuota` transactions for the same user,
executed in the serial order the store's transaction primitive imposes
(Firestore `runTransaction` serializes conflicting read-modify-write
pairs on the same document, spec section 4.5); returns the list of per-call
outcomes and the final store state. -/
def runRace (today plan : String) (mx : Nat) : Nat → QuotaState → List (Except String Nat) × QuotaState
  | 0, st => ([], st)
  | n + 1, st =>
    let step := quotaTx today plan mx st
    let rest := runRace today plan mx n step.2
    (step.1 :: rest.1, rest.2)

/-- Whether a transaction outcome was an accepted consumption. -/
def isAccepted : Except String Nat → Bool
  | Except.ok _ => true
  | Except.error _ => false

/-- A Stripe price reference as read off a subscription's first line item
(`active.items?.data?.[0]?.price`): id, human nickname, lookup key, each
possibly absent. -/
structure Price where
  id : Option String
  nickname : Option String
  lookupKey : Option String
deriving DecidableEq, Repr

/-- The environment configuration `STRIPE_PRICE_BASIC` / `STRIPE_PRICE_PRO`
/ `STRIPE_PRICE_ELITE` read by `planFromPrice`; `none` models an unset
environment variable. -/
structure PriceCfg where
  basic : Option String
  pro : Option String
  elite : Option String
deriving DecidableEq, Repr

/-- The JS object key produced by `[process.env.X]` in an object literal:
an unset variable yields the string key `"undefined"`. -/
def keyOf (o : Option String) : String := o.getD "undefined"

/-- Lookup in the `envMap` object literal of `planFromPrice`
(`lib/billing/quota.js`).  In a JS object literal a later entry wins when
two computed keys collide, so the lookup checks `elite`, then `pro`, then
`basic`. -/
def envLookup (cfg : PriceCfg) (pid : String) : Option String :=
  if pid = keyOf cfg.elite then some "elite"
  else if pid = keyOf cfg.pro then some "pro"
  else if pid = keyOf cfg.basic then some "basic"
  else none

/-- JS `String.prototype.toLowerCase()` on the basic-latin range (the
only characters the matched tier names contain), written over the
character list so it evaluates by kernel reduction. -/
def toLowerStr (s : String) : String := String.mk (s.toList.map Char.toLower)

/-- JS `String.prototype.includes`: whether `pat` occurs as a contiguous
substring of `s`. -/
def containsStr (s pat : String) : Bool :=
  (List.range (s.toList.length + 1)).any
    (fun i => (s.toList.drop i).take pat.toList.length == pat.toList)

/-- `planFromPrice` (`lib/billing/quota.js` lines 7-23): map a price to a
plan label.  An exact id match against the env table wins (the id must be
truthy, i.e. a nonempty string); otherwise case-insensitive substring
matching of the lookup key then the nickname against `basic`, `pro`,
`elite`, in that order; otherwise `none`. -/
def planFromPrice (cfg : PriceCfg) (p : Option Price) : Option String :=
  let priceId := p.bind Price.id
  let nickname := toLowerStr ((p.bind Price.nickname).getD "")
  let lookupKey := toLowerStr ((p.bind Price.lookupKey).getD "")
  let fromEnv : Option String :=
    match priceId with
    | some pid => if pid = "" then none else envLookup cfg pid
    | none => none
  match fromEnv with
  | some t => some t
  | none =>
    if containsStr lookupKey "basic" || containsStr nickname "basic" then some "basic"
    else if containsStr lookupKey "pro" || containsStr nickname "pro" then some "pro"
    else if containsStr lookupKey "elite" || containsStr nickname "elite" then some "elite"
    else none

/-- A subscription record as read from the external ledger: raw status
string, the scheduled-cancellation flag `cancel_at_period_end`, the
period-end timestamp (unix seconds), the creation timestamp, and the
first line item's price. -/
structure Sub where
  status : String
  cancelAtPeriodEnd : Bool
  currentPeriodEnd : Nat
  created : Nat
  price : Option Price
deriving DecidableEq, Repr

/-- `isUsable` (`lib/billing/quota.js` lines 26-31), with `Date.now()`
(milliseconds) passed explicitly: the status must be in
`{'active', 'trialing'}`; when `cancel_at_period_end` is set the record
is usable only while `current_period_end * 1000 > now`. -/
def isUsable (now : Nat) (s : Sub) : Bool :=
  if s.status == "active" || s.status == "trialing" then
    if s.cancelAtPeriodEnd then decide (s.currentPeriodEnd * 1000 > now)
    else true
  else false

/-- The subscription `getPlanFromStripeCustomer` acts on:
`subs.data.find(isUsable)` — the first usable record in the order the
ledger returned the list. -/
def selectedSub (now : Nat) (subs : List Sub) : Option Sub :=
  subs.find? (isUsable now)

/-- `getPlanFromStripeCustomer` (`lib/billing/quota.js` lines 34-44)
applied to the subscription list the ledger returned: the first usable
subscription's price, resolved through `planFromPrice`; `none` when no
subscription is usable. -/
def getPlanFromSubs (cfg : PriceCfg) (now : Nat) (subs : List Sub) : Option String :=
  match selectedSub now subs with
  | none => none
  | some s => planFromPrice cfg s.price

/-- Pick the record with the greatest `created` among `hd :: tl`,
keeping the earlier-listed one on ties — the element
`list.sort((a, b) => b.created - a.created)[0]` selects (JS sort is
stable). -/
def subPickLatest (hd : Sub) (tl : List Sub) : Sub :=
  tl.foldl (fun best x => if best.created < x.created then x else best) hd

/-- The selection the spec describes for the entitlement lookup
(spec section 4.4): filter to usable records, then pick the
most-recently-created survivor.  Stated from the spec's words, for
comparison with `selectedSub`, the code's selection. -/
def specLatestUsable (now : Nat) (subs : List Sub) : Option Sub :=
  match subs.filter (isUsable now) with
  | [] => none
  | hd :: tl => some (subPickLatest hd tl)

/-- Modelled from the spec: `limitForPlan` lives in `lib/billing/limit.js`,
which is absent from the sources.  The spec maps each tier to a fixed
positive daily limit (section 3 PlanTier; section 8.7 gives pro limit = 2)
and the client-side table `PLAN_LIMITS = {basic: 1, pro: 2, elite: 3}` in
`pages/utility.js` gives the values; an unknown tier gets 0, which the
gate treats as no-plan. -/
def limitForPlan (plan : String) : Nat :=
  if plan = "basic" then 1
  else if plan = "pro" then 2
  else if plan = "elite" then 3
  else 0

/-- The external context `checkAndConsumeQuota` runs in: today's day key
(`todayKey()` lives in the absent `lib/billing/limit.js`, so the marker is
a parameter), the current time in milliseconds, the price-id
configuration, and the subscription list the ledger returns for the
user's resolved customer. -/
structure QuotaEnv where
  today : String
  now : Nat
  cfg : PriceCfg
  subs : List Sub

/-- `checkAndConsumeQuota` (`lib/billing/quota.js` lines 102-156): fail
`NO_PLAN` on a falsy uid, on no usable plan, or on a non-positive limit;
otherwise run the atomic counter transaction, whose `LIMIT_EXCEEDED`
abort propagates.  Returns the outcome (`ok (plan, max)` or the error
code) and the quota store state afterwards. -/
def checkAndConsumeQuota (env : QuotaEnv) (uid : String) (st : QuotaState) :
    Except String (String × Nat) × QuotaState :=
  if uid = "" then (Except.error "NO_PLAN", st)
  else
    match getPlanFromSubs env.cfg env.now env.subs with
    | none => (Except.error "NO_PLAN", st)
    | some plan =>
      let mx := limitForPlan plan
      if mx = 0 then (Except.error "NO_PLAN", st)
      else
        match quotaTx env.today plan mx st with
        | (Except.ok _, st2) => (Except.ok (plan, mx), st2)
        | (Except.error e, st2) => (Except.error e, st2)

/-- A Stripe customer record: its id and creation timestamp. -/
structure Customer where
  id : String
  created : Nat
deriving DecidableEq, Repr

/-- The external-ledger calls `resolveStripeCustomerId` can make. -/
inductive ExtCall where
  | searchByUid
  | searchByEmail
  | listByEmail
  | createCustomer
deriving DecidableEq, Repr

/-- The external world `resolveStripeCustomerId` interacts with: the
outcome of the metadata-uid customer search (`error` models a thrown,
caught exception), the auth user's email (`none` when the auth lookup
fails or has no email), the outcome of the email customer search, the
plain customer listing used when that search throws, and the id a
`customers.create` call would mint. -/
structure LedgerEnv where
  byUidSearch : Except Unit (List Customer)
  authEmail : Option String
  byEmailSearch : Except Unit (List Customer)
  emailList : List Customer
  createdId : String

/-- JS truthiness of the cached `stripeCustomerId` field: present and
nonempty. -/
def truthy (o : Option String) : Bool :=
  match o with
  | some s => s != ""
  | none => false

/-- Pick the customer with the greatest `created` among `hd :: tl`,
keeping the earlier-listed one on ties — the element JS's stable
`sort((a, b) => b.created - a.created)[0]` selects. -/
def pickLatest (hd : Customer) (tl : List Customer) : Customer :=
  tl.foldl (fun best x => if best.created < x.created then x else best) hd

/-- The uncached path of `resolveStripeCustomerId` (`lib/billing/quota.js`
lines 47-97): search by uid metadata (failures swallowed), then — when an
email is known — search by email, falling back to a plain listing when the
search throws, and finally create a customer.  Every successful path
persists the id onto the user record before returning.  Result: the
returned id, the `stripeCustomerId` field after the call, and the list of
external-ledger calls made. -/
def resolveCore (env : LedgerEnv) : String × Option String × List ExtCall :=
  match env.byUidSearch with
  | Except.ok (hd :: tl) =>
    let c := pickLatest hd tl
    (c.id, some c.id, [ExtCall.searchByUid])
  | _ =>
    let email := (env.authEmail).getD ""
    if email = "" then
      (env.createdId, some env.createdId, [ExtCall.searchByUid, ExtCall.createCustomer])
    else
      match env.byEmailSearch with
      | Except.ok (hd :: tl) =>
        let c := pickLatest hd tl
        (c.id, some c.id, [ExtCall.searchByUid, ExtCall.searchByEmail])
      | Except.ok [] =>
        (env.createdId, some env.createdId,
          [ExtCall.searchByUid, ExtCall.searchByEmail, ExtCall.createCustomer])
      | Except.error _ =>
        match env.emailList with
        | hd :: tl =>
          let c := pickLatest hd tl
          (c.id, some c.id,
            [ExtCall.searchByUid, ExtCall.searchByEmail, ExtCall.listByEmail])
        | [] =>
          (env.createdId, some env.createdId,
            [ExtCall.searchByUid, ExtCall.searchByEmail, ExtCall.listByEmail,
              ExtCall.createCustomer])

/-- `resolveStripeCustomerId`: return the cached `stripeCustomerId`
immediately when it is truthy (no external calls), otherwise run the
search/create cascade `resolveCore`. -/
def resolveStripeCustomerId (env : LedgerEnv) (cached : Option String) :
    String × Option String × List ExtCall :=
  if truthy cached then (cached.getD "", cached, [])
  else resolveCore env

/-- Customer lists whose every member has a truthy (nonempty) id, and a
truthy id from `customers.create` — always the case for real Stripe ids. -/
def goodIds (env : LedgerEnv) : Prop :=
  env.createdId ≠ "" ∧
  (∀ l, env.byUidSearch = Except.ok l → ∀ c ∈ l, c.id ≠ "") ∧
  (∀ l, env.byEmailSearch = Except.ok l → ∀ c ∈ l, c.id ≠ "") ∧
  (∀ c ∈ env.emailList, c.id ≠ "")

/-- `parseStripeEvent` outcome: verified against a secret, or parsed
without verification (the dev fallback). -/
inductive ParsedEvent where
  | verified (secret : String)
  | insecureParsed
deriving DecidableEq, Repr

/-- The `for (const secret of secrets)` loop of `parseStripeEvent`: the
first secret for which `stripe.webhooks.constructEvent` succeeds. -/
def firstVerifying (verifies : String → Bool) : List String → Option String
  | [] => none
  | s :: rest => if verifies s then some s else firstVerifying verifies rest

/-- `parseStripeEvent` (`pages/api/stripe/webhook.js` lines 147-182):
try each configured secret in order and accept on the first that
verifies; otherwise, when `DEV_WEBHOOK_NO_VERIFY === 'true'` or
`NODE_ENV !== 'production'`, fall back to parsing the raw body as JSON
without verification; otherwise fail.  `secrets` is the comma-split,
trimmed, non-empty-filtered `STRIPE_WEBHOOK_SECRET` list; `verifies s`
is whether the request signature verifies under secret `s`;
`jsonParses` is whether the raw body is valid JSON. -/
def parseStripeEvent (secrets : List String) (verifies : String → Bool)
    (jsonParses : Bool) (nodeEnvProduction : Bool) (devNoVerify : String) :
    Except String ParsedEvent :=
  match firstVerifying verifies secrets with
  | some s => Except.ok (ParsedEvent.verified s)
  | none =>
    if devNoVerify == "true" || !nodeEnvProduction then
      if jsonParses then Except.ok ParsedEvent.insecureParsed
      else Except.error "DEV parse failed"
    else if secrets.isEmpty then
      Except.error "Missing STRIPE_WEBHOOK_SECRET in environment."
    else Except.error "Webhook signature verification failed."

/-- The set of statuses the read-only display endpoint
`pages/api/subscription-status.js` still treats as granting access
(`ACTIVE_STATES`, lines 100-102). -/
def ACTIVE_STATES : List String := ["trialing", "active", "past_due", "unpaid"]

/-- `isActive` on the display path: membership of the latest
subscription's status in `ACTIVE_STATES`. -/
def displayIsActive (status : String) : Bool := ACTIVE_STATES.contains status

/-- A request to the protected-action endpoint `pages/api/compare.js`:
the HTTP method (POST or not), the raw `Authorization` header, whether
`authAdmin.verifyIdToken` would succeed on the extracted token and the
uid it would decode to, whether the multipart body yields two valid
images, and the AI call's outcome (`error` models a thrown provider
error, `ok none` an empty completion). -/
structure CompareReq where
  methodPost : Bool
  authHeader : String
  verifyOk : Bool
  verifiedUid : String
  twoImages : Bool
  aiResult : Except Unit (Option String)

/-- The response classes `pages/api/compare.js` can produce on the
modelled control path.  `noPlan` and `limitExceeded` are the 403/429
responses carrying the machine-readable `error_code`; `forbiddenOther`
is the 403 without a code for any other quota error. -/
inductive Outcome where
  | methodNotAllowed
  | unauthorizedMissing
  | unauthorizedInvalid
  | noPlan
  | limitExceeded
  | forbiddenOther
  | badImages
  | aiError
  | aiNoResult
  | okResult (body : String)
deriving DecidableEq, Repr

/-- What a run of the handler produced: the response, the uid the
request was processed as (`"anonymous"` when processing stopped before
a uid was established), whether `checkAndConsumeQuota` was invoked, and
the quota store state afterwards. -/
structure HandlerResult where
  outcome : Outcome
  uid : String
  quotaChecked : Bool
  qst : QuotaState
deriving Repr

/-- Steps 3-5 of the `compare.js` handler, after auth and quota: require
two valid images (400), call the AI provider (502 on error or empty
result), else 200. -/
def afterQuota (uid : String) (checked : Bool) (st : QuotaState) (req : CompareReq) :
    HandlerResult :=
  if !req.twoImages then ⟨Outcome.badImages, uid, checked, st⟩
  else
    match req.aiResult with
    | Except.error _ => ⟨Outcome.aiError, uid, checked, st⟩
    | Except.ok none => ⟨Outcome.aiNoResult, uid, checked, st⟩
    | Except.ok (some r) => ⟨Outcome.okResult r, uid, checked, st⟩

/-- The `compare.js` handler (lines 32-120).  `isEmu` is
`!!process.env.FIRESTORE_EMULATOR_HOST`.  Non-POST gets 405.  With the
emulator flag the uid is `"dev-user"` and both token verification and
the quota call are skipped; otherwise the bearer token is extracted
(`authHeader.startsWith('Bearer ') ? authHeader.slice(7) : ''`), its
absence is 401, a failed verification is 401, and `checkAndConsumeQuota`
runs, its `NO_PLAN` / `LIMIT_EXCEEDED` codes mapping to 403/429. -/
def compareHandler (isEmu : Bool) (req : CompareReq) (env : QuotaEnv) (st : QuotaState) :
    HandlerResult :=
  if !req.methodPost then ⟨Outcome.methodNotAllowed, "anonymous", false, st⟩
  else if isEmu then afterQuota "dev-user" false st req
  else
    let idToken := if req.authHeader.take 7 = "Bearer " then req.authHeader.drop 7 else ""
    if idToken = "" then ⟨Outcome.unauthorizedMissing, "anonymous", false, st⟩
    else if !req.verifyOk then ⟨Outcome.unauthorizedInvalid, "anonymous", false, st⟩
    else
      match checkAndConsumeQuota env req.verifiedUid st with
      | (Except.ok _, st2) => afterQuota req.verifiedUid true st2 req
      | (Except.error e, st2) =>
        if e = "NO_PLAN" then ⟨Outcome.noPlan, req.verifiedUid, true, st2⟩
        else if e = "LIMIT_EXCEEDED" then ⟨Outcome.limitExceeded, req.verifiedUid, true, st2⟩
        else ⟨Outcome.forbiddenOther, req.verifiedUid, true, st2⟩

/-- C1: N `checkAndConsumeQuota` transactions for one user, serialized by
the store's transaction primitive, accept exactly `min N R` calls where
`R = max - usedToday` is the remaining daily quota; every other call
fails with code `LIMIT_EXCEEDED`; and the counter's count for today
after the race equals its pre-race value plus the number of accepted
calls — no lost updates, no double counting. -/
theorem quota_race_atomicity (today plan : String) (mx N : Nat) (st : QuotaState) :
    (runRace today plan mx N st).1.countP isAccepted = min N (mx - usedOf today st) ∧
    (∀ r ∈ (runRace today plan mx N st).1,
      isAccepted r = true ∨ r = Except.error "LIMIT_EXCEEDED") ∧
    usedOf today (runRace today plan mx N st).2 =
      usedOf today st + min N (mx - usedOf today st) := by
  induction N generalizing st with
  | zero => simp [runRace]
  | succ n ih =>
    by_cases h : mx ≤ usedOf today st
    · have hq : quotaTx today plan mx st = (Except.error "LIMIT_EXCEEDED", st) := by
        simp [quotaTx, h]
      have hmin : mx - usedOf today st = 0 := Nat.sub_eq_zero_of_le h
      obtain ⟨ih1, ih2, ih3⟩ := ih st
      refine ⟨?_, ?_, ?_⟩
      · simp [runRace, hq, isAccepted, ih1, hmin]
      · intro r hr
        simp only [runRace, hq] at hr
        rcases List.mem_cons.mp hr with rfl | hr2
        · exact Or.inr rfl
        · exact ih2 r hr2
      · simp [runRace, hq, ih3, hmin]
    · have hq : quotaTx today plan mx st =
          (Except.ok (usedOf today st + 1),
           some ⟨today, usedOf today st + 1, mx, plan⟩) := by
        simp [quotaTx, h]
      have hu2 : usedOf today (some ⟨today, usedOf today st + 1, mx, plan⟩) =
          usedOf today st + 1 := by simp [usedOf]
      obtain ⟨ih1, ih2, ih3⟩ := ih (some ⟨today, usedOf today st + 1, mx, plan⟩)
      refine ⟨?_, ?_, ?_⟩
      · simp [runRace, hq, isAccepted, ih1, hu2]
        omega
      · intro r hr
        simp only [runRace, hq] at hr
        rcases List.mem_cons.mp hr with rfl | hr2
        · exact Or.inl rfl
        · exact ih2 r hr2
      · rw [show usedOf today (runRace today plan mx (n + 1) st).2 =
            usedOf today (runRace today plan mx n
              (some ⟨today, usedOf today st + 1, mx, plan⟩)).2 by
          simp [runRace, hq]]
        rw [ih3, hu2]
        omega

/-- C2: when the stored day-marker differs from today's day key, a
transaction with a positive limit treats the used count as 0, accepts,
and writes back `count = 1`, `day = today`, and `max` equal to the limit
passed to this call — not the previously stored one. -/
theorem quota_day_reset (today plan : String) (mx : Nat) (c : Counter)
    (hday : c.day ≠ today) (hmx : 0 < mx) :
    quotaTx today plan mx (some c) = (Except.ok 1, some ⟨today, 1, mx, plan⟩) := by
  have hu : usedOf today (some c) = 0 := by simp [usedOf, hday]
  simp [quotaTx, hu, Nat.not_le.mpr hmx]

/-- Witness for C2: yesterday's counter at `count = max = 1` for plan
"basic" accepts a call today for plan "pro" with limit 2 and resets to
`count = 1` with the new call's limit 2, not the stale stored 1. -/
theorem quota_day_reset_witness :
    quotaTx "2026-10-11" "pro" 2 (some ⟨"2026-10-10", 1, 1, "basic"⟩) =
      (Except.ok 1, some ⟨"2026-10-11", 1, 2, "pro"⟩) :=
  quota_day_reset "2026-10-11" "pro" 2 ⟨"2026-10-10", 1, 1, "basic"⟩ (by decide) (by decide)

/-- C3: the transaction aborts with code `LIMIT_EXCEEDED` if and only if
the count for today's day-marker already reached the plan's max before
the call, and exactly in that case the stored counter is left untouched
(otherwise it is overwritten with today's incremented counter). -/
theorem quota_limit_iff (today plan : String) (mx : Nat) (st : QuotaState) :
    ((quotaTx today plan mx st).1 = Except.error "LIMIT_EXCEEDED" ↔
      mx ≤ usedOf today st) ∧
    (quotaTx today plan mx st).2 =
      (if mx ≤ usedOf today st then st
       else some ⟨today, usedOf today st + 1, mx, plan⟩) := by
  by_cases h : mx ≤ usedOf today st <;> simp [quotaTx, h]

/-- C4: a price whose truthy id is found in the env price-id table
resolves to that table's tier no matter what the nickname and lookup-key
fields contain — the id match short-circuits the name-based fallback. -/
theorem planFromPrice_id_wins (cfg : PriceCfg) (p : Price) (pid t : String)
    (hid : p.id = some pid) (hne : pid ≠ "") (hcfg : envLookup cfg pid = some t) :
    planFromPrice cfg (some p) = some t := by
  simp [planFromPrice, hid, hne, hcfg]

/-- Witness for C4: a price with the configured "pro" id but nickname
"Elite Deluxe" resolves to "pro". -/
theorem planFromPrice_id_wins_witness :
    planFromPrice ⟨some "price_basic1", some "price_pro1", some "price_elite1"⟩
      (some ⟨some "price_pro1", some "Elite Deluxe", none⟩) = some "pro" :=
  planFromPrice_id_wins ⟨some "price_basic1", some "price_pro1", some "price_elite1"⟩
    ⟨some "price_pro1", some "Elite Deluxe", none⟩ "price_pro1" "pro" rfl (by decide) rfl

/-- C5: an `active` subscription scheduled for cancellation at period
end is usable exactly while the scheduled effective timestamp
(`current_period_end`, in milliseconds) is still in the future — past it
the predicate rejects even though the status string is still `active`. -/
theorem isUsable_cancel_aware (now : Nat) (s : Sub) (hst : s.status = "active")
    (hc : s.cancelAtPeriodEnd = true) :
    isUsable now s = true ↔ now < s.currentPeriodEnd * 1000 := by
  simp [isUsable, hst, hc]

/-- Witness for C5: with period end at 2 seconds, the record is usable
at 1000 ms and not usable at 5000 ms. -/
theorem isUsable_cancel_aware_witness :
    isUsable 1000 ⟨"active", true, 2, 0, none⟩ = true ∧
    isUsable 5000 ⟨"active", true, 2, 0, none⟩ = false := by
  constructor
  · exact (isUsable_cancel_aware 1000 ⟨"active", true, 2, 0, none⟩ rfl rfl).mpr (by decide)
  · have h := (isUsable_cancel_aware 5000 ⟨"active", true, 2, 0, none⟩ rfl rfl)
    rcases hb : isUsable 5000 ⟨"active", true, 2, 0, none⟩ with _ | _
    · rfl
    · exact absurd (h.mp hb) (by decide)

/-- When no subscription of the user is usable, `checkAndConsumeQuota`
fails `NO_PLAN` and leaves the quota store untouched, whatever the uid. -/
theorem checkAndConsume_noPlan (env : QuotaEnv) (uid : String) (st : QuotaState)
    (h : getPlanFromSubs env.cfg env.now env.subs = none) :
    checkAndConsumeQuota env uid st = (Except.error "NO_PLAN", st) := by
  unfold checkAndConsumeQuota
  by_cases hu : uid = "" <;> simp [hu, h]

/-- C6: `past_due` and `unpaid` records never pass the strict usability
filter of the quota path (which admits only `active` and `trialing`); a
user whose every subscription is `past_due` or `unpaid` gets the
`NO_PLAN` response from the protected-action endpoint with no quota
write; while the read-only display path additionally accepts `past_due`
and `unpaid`. -/
theorem strict_vs_lenient_paths :
    (∀ (now : Nat) (s : Sub), s.status = "past_due" ∨ s.status = "unpaid" →
      isUsable now s = false) ∧
    (∀ (now : Nat) (s : Sub), isUsable now s = true →
      s.status = "active" ∨ s.status = "trialing") ∧
    displayIsActive "past_due" = true ∧ displayIsActive "unpaid" = true ∧
    (∀ (req : CompareReq) (env : QuotaEnv) (st : QuotaState),
      req.methodPost = true →
      req.authHeader.take 7 = "Bearer " → req.authHeader.drop 7 ≠ "" →
      req.verifyOk = true →
      (∀ s ∈ env.subs, s.status = "past_due" ∨ s.status = "unpaid") →
      (compareHandler false req env st).outcome = Outcome.noPlan ∧
      (compareHandler false req env st).qst = st) := by
  have husable : ∀ (now : Nat) (s : Sub),
      s.status = "past_due" ∨ s.status = "unpaid" → isUsable now s = false := by
    intro now s hs
    rcases hs with hs | hs <;> simp [isUsable, hs]
  refine ⟨husable, ?_, by decide, by decide, ?_⟩
  · intro now s h
    unfold isUsable at h
    split at h
    · next hcond =>
      have hor : s.status = "active" ∨ s.status = "trialing" := by simpa using hcond
      exact hor
    · exact absurd h (by simp)
  · intro req env st hm hb hne hv hsubs
    have hfind : selectedSub env.now env.subs = none := by
      unfold selectedSub
      exact List.find?_eq_none.mpr (fun s hs => by
        simp [husable env.now s (hsubs s hs)])
    have hplan : getPlanFromSubs env.cfg env.now env.subs = none := by
      simp [getPlanFromSubs, hfind]
    have hcq := checkAndConsume_noPlan env req.verifiedUid st hplan
    unfold compareHandler
    simp [hm, hb, hne, hv, hcq]

/-- Witness for C6: a valid POST with a bearer token from a user whose
only subscription is `past_due` receives the `NO_PLAN` outcome. -/
theorem strict_vs_lenient_paths_witness :
    (compareHandler false
        ⟨true, "Bearer tok", true, "user1", true, Except.ok (some "report")⟩
        ⟨"2026-10-11", 0, ⟨none, none, none⟩, [⟨"past_due", false, 0, 1, none⟩]⟩
        none).outcome = Outcome.noPlan :=
  (strict_vs_lenient_paths.2.2.2.2
    ⟨true, "Bearer tok", true, "user1", true, Except.ok (some "report")⟩
    ⟨"2026-10-11", 0, ⟨none, none, none⟩, [⟨"past_due", false, 0, 1, none⟩]⟩
    none rfl (by decide) (by decide) rfl (by decide)).1

/-- The record `pickLatest` selects belongs to the candidate list. -/
theorem pickLatest_mem (hd : Customer) (tl : List Customer) :
    pickLatest hd tl ∈ hd :: tl := by
  induction tl generalizing hd with
  | nil => simp [pickLatest]
  | cons x xs ih =>
    have h : pickLatest hd (x :: xs) =
        pickLatest (if hd.created < x.created then x else hd) xs := by
      simp [pickLatest]
    rw [h]
    by_cases hc : hd.created < x.created
    · rw [if_pos hc]
      rcases List.mem_cons.mp (ih x) with h1 | h1 <;> simp [h1]
    · rw [if_neg hc]
      rcases List.mem_cons.mp (ih hd) with h1 | h1 <;> simp [h1]

/-- The record `pickLatest` selects has the greatest creation timestamp
among the candidates. -/
theorem pickLatest_le (hd : Customer) (tl : List Customer) :
    ∀ c ∈ hd :: tl, c.created ≤ (pickLatest hd tl).created := by
  induction tl generalizing hd with
  | nil =>
    intro c hc
    rcases List.mem_cons.mp hc with rfl | h1
    · simp [pickLatest]
    · simp at h1
  | cons x xs ih =>
    intro c hc
    have h : pickLatest hd (x :: xs) =
        pickLatest (if hd.created < x.created then x else hd) xs := by
      simp [pickLatest]
    rw [h]
    have hstep := ih (if hd.created < x.created then x else hd)
    have htop := hstep _ (List.mem_cons_self _ _)
    have hhd : hd.created ≤ (if hd.created < x.created then x else hd).created := by
      by_cases hc2 : hd.created < x.created
      · rw [if_pos hc2]; omega
      · rw [if_neg hc2]
    have hx : x.created ≤ (if hd.created < x.created then x else hd).created := by
      by_cases hc2 : hd.created < x.created
      · rw [if_pos hc2]
      · rw [if_neg hc2]; omega
    rcases List.mem_cons.mp hc with rfl | hc2
    · exact le_trans hhd htop
    rcases List.mem_cons.mp hc2 with rfl | hc3
    · exact le_trans hx htop
    · exact hstep c (List.mem_cons_of_mem _ hc3)

/-- The subscription `subPickLatest` selects belongs to the list. -/
theorem subPickLatest_mem (hd : Sub) (tl : List Sub) :
    subPickLatest hd tl ∈ hd :: tl := by
  induction tl generalizing hd with
  | nil => simp [subPickLatest]
  | cons x xs ih =>
    have h : subPickLatest hd (x :: xs) =
        subPickLatest (if hd.created < x.created then x else hd) xs := by
      simp [subPickLatest]
    rw [h]
    by_cases hc : hd.created < x.created
    · rw [if_pos hc]
      rcases List.mem_cons.mp (ih x) with h1 | h1 <;> simp [h1]
    · rw [if_neg hc]
      rcases List.mem_cons.mp (ih hd) with h1 | h1 <;> simp [h1]

/-- The subscription `subPickLatest` selects has the greatest creation
timestamp in the list. -/
theorem subPickLatest_le (hd : Sub) (tl : List Sub) :
    ∀ s ∈ hd :: tl, s.created ≤ (subPickLatest hd tl).created := by
  induction tl generalizing hd with
  | nil =>
    intro c hc
    rcases List.mem_cons.mp hc with rfl | h1
    · simp [subPickLatest]
    · simp at h1
  | cons x xs ih =>
    intro c hc
    have h : subPickLatest hd (x :: xs) =
        subPickLatest (if hd.created < x.created then x else hd) xs := by
      simp [subPickLatest]
    rw [h]
    have hstep := ih (if hd.created < x.created then x else hd)
    have htop := hstep _ (List.mem_cons_self _ _)
    have hhd : hd.created ≤ (if hd.created < x.created then x else hd).created := by
      by_cases hc2 : hd.created < x.created
      · rw [if_pos hc2]; omega
      · rw [if_neg hc2]
    have hx : x.created ≤ (if hd.created < x.created then x else hd).created := by
      by_cases hc2 : hd.created < x.created
      · rw [if_pos hc2]
      · rw [if_neg hc2]; omega
    rcases List.mem_cons.mp hc with rfl | hc2
    · exact le_trans hhd htop
    rcases List.mem_cons.mp hc2 with rfl | hc3
    · exact le_trans hx htop
    · exact hstep c (List.mem_cons_of_mem _ hc3)

/-- C7, counterexample: two usable `active` subscriptions listed
oldest-first (created 1 before created 2).  The quota path's entitlement
lookup (`subs.data.find(isUsable)`) resolves the first-listed, older
subscription's plan ("basic"), not the plan of the most-recently-created
one the claim requires ("pro", as the spec-side `specLatestUsable`
selection shows). -/
theorem quota_path_first_usable_counterexample :
    getPlanFromSubs ⟨none, none, none⟩ 0
        [⟨"active", false, 0, 1, some ⟨none, some "basic", none⟩⟩,
         ⟨"active", false, 0, 2, some ⟨none, some "pro", none⟩⟩] = some "basic" ∧
    specLatestUsable 0
        [⟨"active", false, 0, 1, some ⟨none, some "basic", none⟩⟩,
         ⟨"active", false, 0, 2, some ⟨none, some "pro", none⟩⟩] =
      some ⟨"active", false, 0, 2, some ⟨none, some "pro", none⟩⟩ ∧
    planFromPrice ⟨none, none, none⟩ (some ⟨none, some "pro", none⟩) = some "pro" :=
  ⟨by decide, by decide, by decide⟩

/-- C7, amended: where the code sorts candidates by creation timestamp
(customer-identity candidates in `resolveStripeCustomerId`, via
`pickLatest`/`subPickLatest`), the selected record is a candidate with
the greatest creation timestamp; the entitlement lookup used by the
quota path instead picks the first usable subscription in the order the
ledger returned the list. -/
theorem latest_selection_amended :
    (∀ (hd : Customer) (tl : List Customer),
      pickLatest hd tl ∈ hd :: tl ∧
      ∀ c ∈ hd :: tl, c.created ≤ (pickLatest hd tl).created) ∧
    (∀ (hd : Sub) (tl : List Sub),
      subPickLatest hd tl ∈ hd :: tl ∧
      ∀ s ∈ hd :: tl, s.created ≤ (subPickLatest hd tl).created) ∧
    (∀ (now : Nat) (l1 : List Sub) (s : Sub) (l2 : List Sub),
      (∀ x ∈ l1, isUsable now x = false) → isUsable now s = true →
      selectedSub now (l1 ++ s :: l2) = some s) := by
  refine ⟨fun hd tl => ⟨pickLatest_mem hd tl, pickLatest_le hd tl⟩,
    fun hd tl => ⟨subPickLatest_mem hd tl, subPickLatest_le hd tl⟩, ?_⟩
  intro now l1 s l2
  induction l1 with
  | nil =>
    intro _ hus
    show ((s :: l2).find? (isUsable now)) = some s
    exact List.find?_cons_of_pos _ hus
  | cons y ys ih =>
    intro hno hus
    have hy : isUsable now y = false := hno y (by simp)
    show ((y :: (ys ++ s :: l2)).find? (isUsable now)) = some s
    rw [List.find?_cons_of_neg _ (by simp [hy])]
    exact ih (fun x hx => hno x (by simp [hx])) hus

/-- Witness for the amended C7: a usable subscription behind one
unusable one is selected by the quota path even though a newer usable
subscription follows it. -/
theorem latest_selection_amended_witness :
    selectedSub 0 ([⟨"canceled", false, 0, 9, none⟩] ++
        ⟨"active", false, 0, 1, none⟩ :: [⟨"active", false, 0, 7, none⟩]) =
      some ⟨"active", false, 0, 1, none⟩ :=
  latest_selection_amended.2.2 0 [⟨"canceled", false, 0, 9, none⟩]
    ⟨"active", false, 0, 1, none⟩ [⟨"active", false, 0, 7, none⟩]
    (by decide) (by decide)

/-- Every non-cached resolution path persists the id it returns onto the
user record, and that id is nonempty when the ledger hands out nonempty
ids. -/
theorem resolveCore_spec (env : LedgerEnv) (h : goodIds env) :
    (resolveCore env).2.1 = some (resolveCore env).1 ∧ (resolveCore env).1 ≠ "" := by
  obtain ⟨h1, h2, h3, h4⟩ := h
  unfold resolveCore
  cases hu : env.byUidSearch with
  | ok l =>
    cases l with
    | nil =>
      by_cases he : (env.authEmail).getD "" = ""
      · simp [he, h1]
      · simp only [he, if_false]
        cases hb : env.byEmailSearch with
        | ok l2 =>
          cases l2 with
          | nil => simp [h1]
          | cons hd tl =>
            refine ⟨rfl, h3 _ hb _ (pickLatest_mem hd tl)⟩
        | error e =>
          cases hl : env.emailList with
          | nil => simp [h1]
          | cons hd tl =>
            refine ⟨rfl, h4 _ (hl ▸ pickLatest_mem hd tl)⟩
    | cons hd tl =>
      refine ⟨rfl, h2 _ hu _ (pickLatest_mem hd tl)⟩
  | error e =>
    by_cases he : (env.authEmail).getD "" = ""
    · simp [he, h1]
    · simp only [he, if_false]
      cases hb : env.byEmailSearch with
      | ok l2 =>
        cases l2 with
        | nil => simp [h1]
        | cons hd tl =>
          refine ⟨rfl, h3 _ hb _ (pickLatest_mem hd tl)⟩
      | error e2 =>
        cases hl : env.emailList with
        | nil => simp [h1]
        | cons hd tl =>
          refine ⟨rfl, h4 _ (hl ▸ pickLatest_mem hd tl)⟩

/-- C8: after any first resolution the returned id is persisted on the
user record, and a second sequential call returns that same id from the
cache with an empty external-call list — no ledger search and no create.
(`goodIds` says the ledger hands out nonempty ids, which real Stripe
ids always are.) -/
theorem resolve_idempotent (env : LedgerEnv) (cached : Option String) (h : goodIds env) :
    (resolveStripeCustomerId env cached).2.1 =
      some (resolveStripeCustomerId env cached).1 ∧
    resolveStripeCustomerId env (resolveStripeCustomerId env cached).2.1 =
      ((resolveStripeCustomerId env cached).1,
        some (resolveStripeCustomerId env cached).1, ([] : List ExtCall)) := by
  by_cases hc : truthy cached
  · cases cached with
    | none => simp [truthy] at hc
    | some s =>
      have hs : (s != "") = true := by simpa [truthy] using hc
      simp [resolveStripeCustomerId, truthy, hs]
  · obtain ⟨hpersist, hne⟩ := resolveCore_spec env h
    have h1 : resolveStripeCustomerId env cached = resolveCore env := by
      simp [resolveStripeCustomerId, hc]
    rw [h1, hpersist]
    have ht : truthy (some (resolveCore env).1) = true := by
      simp [truthy]
      exact hne
    simp [resolveStripeCustomerId, ht]

/-- A concrete ledger for the C8 witness: the uid-metadata search finds
one customer `cus_1`. -/
def envW : LedgerEnv := ⟨Except.ok [⟨"cus_1", 5⟩], none, Except.ok [], [], "cus_new"⟩

/-- `envW` hands out nonempty ids. -/
theorem envW_good : goodIds envW := by
  refine ⟨by decide, ?_, ?_, ?_⟩
  · intro l hl c hcl
    cases hl
    simp at hcl
    subst hcl
    decide
  · intro l hl c hcl
    cases hl
    simp at hcl
  · intro c hcl
    simp [envW] at hcl

/-- Witness for C8: starting with no cached id, the second call returns
the id the first call found and persisted, making no external calls. -/
theorem resolve_idempotent_witness :
    resolveStripeCustomerId envW (resolveStripeCustomerId envW none).2.1 =
      ("cus_1", some "cus_1", ([] : List ExtCall)) := by
  have h := (resolve_idempotent envW none envW_good).2
  simpa using h

/-- C9, counterexample: with the production flag set
(`NODE_ENV === 'production'`) but `DEV_WEBHOOK_NO_VERIFY === 'true'`, a
payload whose signature verifies under none of the configured secrets is
still parsed and handled without verification — the insecure relaxation
is reachable in production. -/
theorem webhook_insecure_in_production_counterexample :
    parseStripeEvent ["whsec_a"] (fun _ => false) true true "true" =
      Except.ok ParsedEvent.insecureParsed := rfl

/-- C9, amended: when the production flag is set and the
`DEV_WEBHOOK_NO_VERIFY` override is not the string `"true"`, a payload
verifying under none of the configured secrets is always an error — the
event is never parsed and handled as authentic. -/
theorem webhook_production_rejects (secrets : List String) (verifies : String → Bool)
    (jsonParses : Bool) (devNoVerify : String)
    (hdev : devNoVerify ≠ "true")
    (hver : ∀ s ∈ secrets, verifies s = false) :
    ∃ msg, parseStripeEvent secrets verifies jsonParses true devNoVerify =
      Except.error msg := by
  have hfv : firstVerifying verifies secrets = none := by
    induction secrets with
    | nil => rfl
    | cons s rest ih =>
      simp only [firstVerifying, hver s (by simp), if_false]
      exact ih (fun x hx => hver x (by simp [hx]))
  by_cases hse : secrets.isEmpty <;>
    simp [parseStripeEvent, hfv, hdev, hse]

/-- Witness for the amended C9: one configured secret, signature
verifying under none, override unset — the parse errors. -/
theorem webhook_production_rejects_witness :
    ∃ msg, parseStripeEvent ["whsec_a"] (fun _ => false) true true "false" =
      Except.error msg :=
  webhook_production_rejects ["whsec_a"] (fun _ => false) true "false" (by decide)
    (fun s _ => rfl)

/-- C10: with the emulator flag set the handler never touches the quota
store, never invokes the quota check, can produce none of the 401 /
`NO_PLAN` / `LIMIT_EXCEEDED` outcomes, and processes every POST request
as user `"dev-user"`. -/
theorem emulator_bypass (req : CompareReq) (env : QuotaEnv) (st : QuotaState) :
    (compareHandler true req env st).qst = st ∧
    (compareHandler true req env st).quotaChecked = false ∧
    (compareHandler true req env st).outcome ≠ Outcome.unauthorizedMissing ∧
    (compareHandler true req env st).outcome ≠ Outcome.unauthorizedInvalid ∧
    (compareHandler true req env st).outcome ≠ Outcome.noPlan ∧
    (compareHandler true req env st).outcome ≠ Outcome.limitExceeded ∧
    (req.methodPost = true → (compareHandler true req env st).uid = "dev-user") := by
  unfold compareHandler
  by_cases hm : req.methodPost
  · simp only [hm, Bool.not_true, Bool.false_eq_true, if_false, if_true]
    unfold afterQuota
    by_cases hi : req.twoImages
    · rcases har : req.aiResult with e | r
      · simp [hi, har]
      · rcases r with _ | body <;> simp [hi, har]
    · simp [hi]
  · simp [hm]

/-- Witness for C10: a tokenless POST in the emulator is processed as
`"dev-user"`. -/
theorem emulator_bypass_witness :
    (compareHandler true ⟨true, "", false, "", true, Except.ok (some "report")⟩
      ⟨"2026-10-11", 0, ⟨none, none, none⟩, []⟩ none).uid = "dev-user" :=
  (emulator_bypass ⟨true, "", false, "", true, Except.ok (some "report")⟩
    ⟨"2026-10-11", 0, ⟨none, none, none⟩, []⟩ none).2.2.2.2.2.2 rfl

/-- Witness for C1: five racing calls against a fresh counter with limit
2 accept exactly two and leave the count at 2. -/
theorem quota_race_atomicity_witness :
    (runRace "2026-10-11" "pro" 2 5 none).1.countP isAccepted = 2 ∧
    usedOf "2026-10-11" (runRace "2026-10-11" "pro" 2 5 none).2 = 2 := by
  have h := quota_race_atomicity "2026-10-11" "pro" 2 5 none
  have h0 : usedOf "2026-10-11" (none : QuotaState) = 0 := rfl
  constructor
  · have h1 := h.1
    rw [h0] at h1
    omega
  · have h3 := h.2.2
    rw [h0] at h3
    omega

/-- Witness for C3: a same-day counter at its limit aborts with
`LIMIT_EXCEEDED` and is left untouched. -/
theorem quota_limit_iff_witness :
    (quotaTx "2026-10-11" "pro" 1 (some ⟨"2026-10-11", 1, 1, "pro"⟩)).1 =
      Except.error "LIMIT_EXCEEDED" ∧
    (quotaTx "2026-10-11" "pro" 1 (some ⟨"2026-10-11", 1, 1, "pro"⟩)).2 =
      some ⟨"2026-10-11", 1, 1, "pro"⟩ := by
  have h := quota_limit_iff "2026-10-11" "pro" 1 (some ⟨"2026-10-11", 1, 1, "pro"⟩)
  refine ⟨h.1.mpr (by decide), ?_⟩
  rw [h.2, if_pos (by decide : 1 ≤ usedOf "2026-10-11" (some ⟨"2026-10-11", 1, 1, "pro"⟩))]

end FinalPixel
